import Mathlib

/-!
Verification of the Sign2Speech backend pipeline: shallow embeddings of
the landmark encoder (`pose_converter.py`), the motion-window extractor
(`spamo_service.py`), the boundary normalizer (`segmentation_service.py`),
the frame/millisecond conversions (`main.py`, `transcription_service.py`),
the response assembly of the translate endpoint (`main.py`), the lazy
model singletons, and the batch notation translator
(`translation_service.py`), together with theorems settling the spec's
claims about them.
-/

namespace Sign2Speech

/-! ## Python `range` and `int` primitives -/

/-- Python `range(0, stop, step)` for a positive step: the multiples of
`step` below `stop`, i.e. `step*0, step*1, …`, of which there are
`⌈stop/step⌉`. -/
def pyRange (stop step : Nat) : List Nat :=
  (List.range ((stop + step - 1) / step)).map (· * step)

/-- Python `int(q)`: truncation toward zero. -/
def pyInt (q : ℚ) : ℤ :=
  if q < 0 then ⌈q⌉ else ⌊q⌋

/-! ## Motion window extraction — `spamo_service.py`

`sliding_window_for_list` (lines 40–48) and the windowing policy of
`VideoMAEFeatureExtractor.get_feats` (lines 128–141). -/

/-- `sliding_window_for_list(data_list, window_size, overlap_size)`:
`step_size = window_size - overlap_size`; windows start at
`range(0, len(data_list), step_size)` and a start index is kept only if
the full window fits (`i + window_size <= len(data_list)`). -/
def sliding_window_for_list (l : List α) (window_size overlap_size : Nat) :
    List (List α) :=
  let step_size := window_size - overlap_size
  (pyRange l.length step_size).filterMap fun i =>
    if i + window_size ≤ l.length then some ((l.drop i).take window_size)
    else none

/-- The chunking part of `VideoMAEFeatureExtractor.get_feats`: pad by
repeating the last frame when fewer than 16 frames, slide a window of
size 16 with overlap 8, and fall back to the first 16 frames when no
window was produced.  (`frames[-1]` on an empty list raises in Python;
the empty input is modelled as producing no chunks.) -/
def mae_chunks (frames : List α) : List (List α) :=
  match frames.getLast? with
  | none => []
  | some last =>
    let padded :=
      if frames.length < 16 then
        frames ++ List.replicate (16 - frames.length) last
      else frames
    let chunks := sliding_window_for_list padded 16 8
    if chunks.isEmpty then [padded.take 16] else chunks

/-! ## Frame/millisecond conversions

`main.py` line 258: `start_ms = int(seg['start'] / request.fps * 1000)`;
`transcription_service.py` line 82: `start_frame = int(start_ms / 1000 * fps)`. -/

/-- `int(frame / fps * 1000)` — frame index to milliseconds, truncated. -/
def frame_to_ms (frame : ℕ) (fps : ℚ) : ℤ :=
  pyInt ((frame : ℚ) / fps * 1000)

/-- `int(ms / 1000 * fps)` — milliseconds back to a frame index, truncated. -/
def ms_to_frame (ms : ℤ) (fps : ℚ) : ℤ :=
  pyInt ((ms : ℚ) / 1000 * fps)

/-! ## Landmark encoder — `pose_converter.py` lines 33–112 -/

/-- A landmark as received from the frontend: a JSON object whose fields
are read with `lm.get('x', 0)` etc.; `visibility` defaults to 1.0 when
absent. -/
structure Landmark where
  x : Option ℚ
  y : Option ℚ
  z : Option ℚ
  visibility : Option ℚ
deriving DecidableEq

/-- A frame: four optional landmark groups (`frame.get(...) or []` maps
an absent group to the empty list); a group entry may itself be falsy
(`if lm:`), modelled as `none`. -/
structure Frame where
  poseLandmarks : Option (List (Option Landmark))
  faceLandmarks : Option (List (Option Landmark))
  leftHandLandmarks : Option (List (Option Landmark))
  rightHandLandmarks : Option (List (Option Landmark))
deriving DecidableEq

def POSE_POINTS : ℕ := 33
def FACE_POINTS : ℕ := 468
def HAND_POINTS : ℕ := 21
def TOTAL_POINTS : ℕ := POSE_POINTS + FACE_POINTS + HAND_POINTS * 2

/-- The data slots of one group: `cap` slots; slot `i` holds
`[x*width, y*height, z*width]` when `group[:cap][i]` is a populated
landmark, `[0, 0, 0]` otherwise (zero-initialized array). -/
def encGroup (g : List (Option Landmark)) (cap : ℕ) (w h : ℚ) :
    List (List ℚ) :=
  (List.range cap).map fun i =>
    match (g.take cap).get? i with
    | some (some lm) => [lm.x.getD 0 * w, lm.y.getD 0 * h, lm.z.getD 0 * w]
    | _ => [0, 0, 0]

/-- The confidence slots of one group: `visibility` (default 1.0) for a
populated landmark, 0 otherwise. -/
def encGroupConf (g : List (Option Landmark)) (cap : ℕ) : List ℚ :=
  (List.range cap).map fun i =>
    match (g.take cap).get? i with
    | some (some lm) => lm.visibility.getD 1
    | _ => 0

/-- One frame's 543 data slots, in the fixed block order body-pose,
face, left hand, right hand. -/
def frameData (f : Frame) (w h : ℚ) : List (List ℚ) :=
  encGroup (f.poseLandmarks.getD []) POSE_POINTS w h ++
    (encGroup (f.faceLandmarks.getD []) FACE_POINTS w h ++
      (encGroup (f.leftHandLandmarks.getD []) HAND_POINTS w h ++
        encGroup (f.rightHandLandmarks.getD []) HAND_POINTS w h))

/-- One frame's 543 confidence slots, same block order. -/
def frameConf (f : Frame) : List ℚ :=
  encGroupConf (f.poseLandmarks.getD []) POSE_POINTS ++
    (encGroupConf (f.faceLandmarks.getD []) FACE_POINTS ++
      (encGroupConf (f.leftHandLandmarks.getD []) HAND_POINTS ++
        encGroupConf (f.rightHandLandmarks.getD []) HAND_POINTS))

/-- `landmarks_to_numpy(frames, width, height)`: the `(data, confidence)`
pair with the singleton person axis explicit — shapes
`[frames, 1, 543, 3]` and `[frames, 1, 543]`. -/
def landmarks_to_numpy (frames : List Frame) (w h : ℚ) :
    List (List (List (List ℚ))) × List (List (List ℚ)) :=
  (frames.map fun f => [frameData f w h],
   frames.map fun f => [frameConf f])

/-- The four landmark groups. -/
inductive LmGroup where
  | body
  | face
  | leftHand
  | rightHand
deriving DecidableEq

/-- Fixed per-group capacity (33/468/21/21). -/
def LmGroup.capacity : LmGroup → ℕ
  | .body => POSE_POINTS
  | .face => FACE_POINTS
  | .leftHand => HAND_POINTS
  | .rightHand => HAND_POINTS

/-- First slot of each group in the flat 543-point layout. -/
def LmGroup.offset : LmGroup → ℕ
  | .body => 0
  | .face => POSE_POINTS
  | .leftHand => POSE_POINTS + FACE_POINTS
  | .rightHand => POSE_POINTS + FACE_POINTS + HAND_POINTS

/-- The group's field of a frame. -/
def LmGroup.select : LmGroup → Frame → Option (List (Option Landmark))
  | .body, f => f.poseLandmarks
  | .face, f => f.faceLandmarks
  | .leftHand, f => f.leftHandLandmarks
  | .rightHand, f => f.rightHandLandmarks

/-- Read point `p` of frame `j` from the data tensor. -/
def dataAt (d : List (List (List (List ℚ)))) (j p : ℕ) : List ℚ :=
  ((d.getD j []).getD 0 []).getD p []

/-- Read confidence of point `p` of frame `j`. -/
def confAt (c : List (List (List ℚ))) (j p : ℕ) : ℚ :=
  ((c.getD j []).getD 0 []).getD p 0

/-! ## Boundary normalizer — `segmentation_service.py`

`_extract_segments` (lines 58–93): duck-typed segment records resolved in
the order mapping keys → positional pair → attributes → silent skip, then
turned into boundary records with times `round(frame / fps, 3)`. -/

/-- Python's `round` to an integer: round half to even. -/
def roundHalfEven (q : ℚ) : ℤ :=
  if q - ⌊q⌋ < 1/2 then ⌊q⌋
  else if (1 : ℚ)/2 < q - ⌊q⌋ then ⌊q⌋ + 1
  else if ⌊q⌋ % 2 = 0 then ⌊q⌋ else ⌊q⌋ + 1

/-- Python `round(q, 3)`. -/
def round3 (q : ℚ) : ℚ :=
  (roundHalfEven (q * 1000) : ℚ) / 1000

/-- A heterogeneous segment record, modelled by its capabilities: whether
it is a mapping and which of the keys `start`/`end` it carries, whether it
is a positional sequence and its items, and which of the attributes
`start`/`end` it exposes. -/
structure SegRecord where
  isDict : Bool
  mapStart : Option ℤ
  mapEnd : Option ℤ
  isSeq : Bool
  items : List ℤ
  attrStart : Option ℤ
  attrEnd : Option ℤ
deriving DecidableEq

/-- The duck-typed resolution chain of `_extract_segments`:
`isinstance(segment, dict) and 'start' in segment and 'end' in segment`,
elif `isinstance(segment, (tuple, list)) and len(segment) >= 2`,
elif `hasattr(segment, 'start') and hasattr(segment, 'end')`,
else skip (`none`). -/
def resolveRecord (r : SegRecord) : Option (ℤ × ℤ) :=
  if r.isDict ∧ r.mapStart.isSome ∧ r.mapEnd.isSome then
    match r.mapStart, r.mapEnd with
    | some s, some e => some (s, e)
    | _, _ => none
  else if r.isSeq ∧ 2 ≤ r.items.length then
    match r.items.get? 0, r.items.get? 1 with
    | some s, some e => some (s, e)
    | _, _ => none
  else
    match r.attrStart, r.attrEnd with
    | some s, some e => some (s, e)
    | _, _ => none

/-- A canonical boundary record. -/
structure Boundary where
  start_frame : ℤ
  end_frame : ℤ
  start_time : ℚ
  end_time : ℚ
deriving DecidableEq

/-- The boundary built from resolved frames: times are
`round(frame / fps, 3)`. -/
def mkBoundary (s e : ℤ) (fps : ℚ) : Boundary :=
  ⟨s, e, round3 ((s : ℚ) / fps), round3 ((e : ℚ) / fps)⟩

/-- `_extract_segments(segments, fps)`. -/
def extract_segments (segments : List SegRecord) (fps : ℚ) : List Boundary :=
  segments.filterMap fun seg =>
    (resolveRecord seg).map fun p => mkBoundary p.1 p.2 fps

/-- A purely positional record (a Python tuple/list). -/
def posRecord (items : List ℤ) : SegRecord :=
  ⟨false, none, none, true, items, none, none⟩

/-! ## Translate endpoint — `main.py` lines 175–319

The response-assembly part of `translate_endpoint` after segmentation,
parameterized over the external transcription and translation
collaborators, plus the input validation that precedes everything. -/

/-- One entry of the `signs` list of a translate response. -/
structure TranslatedSign where
  start_frame : ℤ
  end_frame : ℤ
  start_time : ℚ
  end_time : ℚ
  signwriting : String
  text : String
deriving DecidableEq

/-- The translate endpoint's response body. -/
structure TranslateResponse where
  signs : List TranslatedSign
  sentences : List Boundary
  full_text : String
  frame_count : ℕ
  duration : ℚ
deriving DecidableEq

/-- `sign_annotations` built in `translate_endpoint` (lines 256–260):
per segment, `(int(start/fps*1000), int(end/fps*1000), "")`. -/
def sign_annotations (sign_segments : List (ℤ × ℤ)) (fps : ℚ) :
    List (ℤ × ℤ × String) :=
  sign_segments.map fun p =>
    (pyInt ((p.1 : ℚ) / fps * 1000), pyInt ((p.2 : ℚ) / fps * 1000), "")

/-- `translate_endpoint` from segmentation onward (lines 219–315):
short-circuit on no SIGN segments; otherwise transcribe the annotations,
translate the non-empty notation list, and assemble one `TranslatedSign`
per SIGN segment, padding a missing notation/translation with `""`
(`signwriting_list[i] if i < len(signwriting_list) else ""`). -/
def translate_assemble (frame_count : ℕ) (fps : ℚ)
    (sign_segments sentence_segments : List (ℤ × ℤ))
    (transcribe : List (ℤ × ℤ × String) → List String)
    (translateBatch : List String → List String) : TranslateResponse :=
  if sign_segments.isEmpty then
    ⟨[], [], "", frame_count, (frame_count : ℚ) / fps⟩
  else
    let signwriting_list := transcribe (sign_annotations sign_segments fps)
    let translations :=
      if signwriting_list.isEmpty then [] else translateBatch signwriting_list
    let translated_signs := sign_segments.enum.map fun (i, seg) =>
      TranslatedSign.mk seg.1 seg.2
        (round3 ((seg.1 : ℚ) / fps)) (round3 ((seg.2 : ℚ) / fps))
        (signwriting_list.getD i "") (translations.getD i "")
    let sentences := sentence_segments.map fun seg =>
      Boundary.mk seg.1 seg.2
        (round3 ((seg.1 : ℚ) / fps)) (round3 ((seg.2 : ℚ) / fps))
    ⟨translated_signs, sentences, String.intercalate " " translations,
      frame_count, (frame_count : ℚ) / fps⟩

/-! ## Lazy model singletons — `spamo_service.py` lines 267–294,
`translation_service.py` lines 20–24

`get_vit_extractor`, `get_mae_extractor`, `get_spamo_model` and the
`lru_cache`-decorated `get_translator` all follow the same pattern: a
process-global cache per model kind, constructed on first use and
returned unchanged afterwards.  The constructor is modelled as a function
of the number of constructions performed so far for that kind, so that
"the handle produced by the first construction" is `construct k 0`. -/

/-- The four lazily constructed model kinds. -/
inductive ModelKind where
  | spatial
  | motion
  | textGen
  | translator
deriving DecidableEq

/-- The process-global cache: per kind, the cached handle (if any) and
how many times the underlying model has been constructed. -/
structure CacheState (H : Type) where
  cached : ModelKind → Option H
  constructions : ModelKind → ℕ

/-- Process start: nothing cached, nothing constructed. -/
def initCache (H : Type) : CacheState H :=
  ⟨fun _ => none, fun _ => 0⟩

/-- One accessor call (`if _x is None: _x = Construct(); return _x`). -/
def get_model (construct : ModelKind → ℕ → H) (k : ModelKind)
    (s : CacheState H) : H × CacheState H :=
  match s.cached k with
  | some h => (h, s)
  | none =>
    let h := construct k (s.constructions k)
    (h, ⟨fun k2 => if k2 = k then some h else s.cached k2,
         fun k2 => if k2 = k then s.constructions k2 + 1
                   else s.constructions k2⟩)

/-- A sequence of accessor calls, by kind, threading the global cache. -/
def run_calls (construct : ModelKind → ℕ → H) :
    List ModelKind → CacheState H → List H × CacheState H
  | [], s => ([], s)
  | k :: ks, s =>
    let r := get_model construct k s
    let rs := run_calls construct ks r.2
    (r.1 :: rs.1, rs.2)

/-- Cache invariant: each kind is either untouched, or was constructed
exactly once and caches that first handle. -/
def GoodCache (construct : ModelKind → ℕ → H) (s : CacheState H) : Prop :=
  ∀ k, (s.cached k = none ∧ s.constructions k = 0) ∨
    (s.cached k = some (construct k 0) ∧ s.constructions k = 1)

/-- Outcome of an endpoint call: an HTTP error or a response value. -/
inductive EndpointResult (α : Type) where
  | httpError (status : ℕ) (detail : String)
  | ok (value : α)
deriving DecidableEq

/-- The validation prologue of `translate_endpoint` (lines 182–189):
reject empty input, then reject fewer than 10 frames, then run the rest
of the pipeline. -/
def translate_endpoint (frames : List α)
    (run : List α → TranslateResponse) : EndpointResult TranslateResponse :=
  if frames.isEmpty then .httpError 400 "No frames provided"
  else if frames.length < 10 then
    .httpError 400 ("Too few frames (" ++ toString frames.length ++
      "). Need at least 10 frames for translation.")
  else .ok (run frames)

/-! ## Batch notation translation — `translation_service.py` lines 55–81

`translate_signs`: empty input returns `[]` before the translator is
even fetched; otherwise each notation string is tokenized, prefixed with
the `$lang` marker, batch-translated, and the `@@` BPE join markers are
stripped from each output (`out.replace("@@", "")`). -/

/-- Python `out.replace("@@", "")` on the character list: scan left to
right, removing each non-overlapping occurrence of two adjacent `@`. -/
def stripBPE : List Char → List Char
  | [] => []
  | [c] => [c]
  | c1 :: c2 :: rest =>
    if c1 = '@' ∧ c2 = '@' then stripBPE rest
    else c1 :: stripBPE (c2 :: rest)

/-- Whether two adjacent `@` (a BPE join marker) occur in the string. -/
def hasMarker : List Char → Bool
  | c1 :: c2 :: rest => (c1 = '@' && c2 = '@') || hasMarker (c2 :: rest)
  | _ => false

/-- `translate_signs(signwriting_list, target_language)`, parameterized
over the tokenizer, the cached-translator accessor and the external
batch-translation call. -/
def translate_signs {T : Type} (signwriting_list : List String)
    (target_language : String)
    (tokenize : String → List String)
    (get_translator : Unit → T)
    (translateCall : T → List String → List String) : List String :=
  if signwriting_list.isEmpty then []
  else
    let translator := get_translator ()
    let model_inputs := signwriting_list.map fun sw =>
      "$" ++ target_language ++ " " ++ String.intercalate " " (tokenize sw)
    (translateCall translator model_inputs).map fun out =>
      (⟨stripBPE out.data⟩ : String)

/-! ## Window lemmas -/

lemma filterMap_if_of_forall_pos {β : Type _} (p : ℕ → Prop) [DecidablePred p]
    (f : ℕ → β) (l : List ℕ) (h : ∀ k ∈ l, p k) :
    (l.filterMap fun k => if p k then some (f k) else none) = l.map f := by
  induction l with
  | nil => rfl
  | cons a t ih =>
    rw [List.filterMap_cons, if_pos (h a (by simp)), List.map_cons,
      ih fun k hk => h k (by simp [hk])]

lemma filterMap_if_of_forall_neg {β : Type _} (p : ℕ → Prop) [DecidablePred p]
    (f : ℕ → β) (l : List ℕ) (h : ∀ k ∈ l, ¬ p k) :
    (l.filterMap fun k => if p k then some (f k) else none) = [] := by
  induction l with
  | nil => rfl
  | cons a t ih =>
    rw [List.filterMap_cons, if_neg (h a (by simp)),
      ih fun k hk => h k (by simp [hk])]

/-- For at least 16 frames, the sliding window (size 16, overlap 8) is the
list of the `(len-16)/8 + 1` windows starting at multiples of 8. -/
lemma sliding_window_eq_map (l : List α) (hl : 16 ≤ l.length) :
    sliding_window_for_list l 16 8 =
      (List.range ((l.length - 16) / 8 + 1)).map
        (fun k => (l.drop (8 * k)).take 16) := by
  set L := l.length with hL
  set m := (L - 16) / 8 + 1 with hm
  set n := (L + 7) / 8 with hn
  have hmn : m ≤ n := by
    have h1 : (L - 16) / 8 + 1 = (L - 16 + 8) / 8 := by
      rw [Nat.add_div_right _ (by norm_num)]
    have h2 : L - 16 + 8 ≤ L + 7 := by omega
    rw [hm, hn, h1]
    exact Nat.div_le_div_right h2
  have hsplit : List.range n = List.range m ++ (List.range (n - m)).map (m + ·) := by
    rw [← List.range_add m (n - m), Nat.add_sub_cancel' hmn]
  have hcond : ∀ k : ℕ, (k * 8 + 16 ≤ L ↔ k < m) := by
    intro k
    constructor
    · intro h
      have : k * 8 ≤ L - 16 := by omega
      have : k ≤ (L - 16) / 8 := by
        exact (Nat.le_div_iff_mul_le (by norm_num)).mpr this
      omega
    · intro h
      have hk : k ≤ (L - 16) / 8 := by omega
      have : k * 8 ≤ (L - 16) / 8 * 8 := Nat.mul_le_mul_right 8 hk
      have : k * 8 ≤ L - 16 := le_trans this (Nat.div_mul_le_self _ _)
      omega
  rw [sliding_window_for_list, pyRange]
  have h168 : (16 : ℕ) - 8 = 8 := by norm_num
  have hL7 : L + 8 - 1 = L + 7 := by omega
  simp only [← hL, h168, hL7, ← hn]
  rw [List.filterMap_map, hsplit, List.filterMap_append]
  have hfirst :
      (List.range m).filterMap
        ((fun i => if i + 16 ≤ L then some ((l.drop i).take 16) else none) ∘ (· * 8))
      = (List.range m).map (fun k => (l.drop (8 * k)).take 16) := by
    have := filterMap_if_of_forall_pos (fun k => k * 8 + 16 ≤ L)
      (fun k => (l.drop (k * 8)).take 16) (List.range m)
      (fun k hk => (hcond k).mpr (List.mem_range.mp hk))
    simp only [Function.comp_def] at this ⊢
    rw [this]
    exact List.map_congr_left fun k _ => by rw [Nat.mul_comm]
  have hsecond :
      ((List.range (n - m)).map (m + ·)).filterMap
        ((fun i => if i + 16 ≤ L then some ((l.drop i).take 16) else none) ∘ (· * 8))
      = [] := by
    rw [List.filterMap_map]
    have := filterMap_if_of_forall_neg (fun k => (m + k) * 8 + 16 ≤ L)
      (fun k => (l.drop ((m + k) * 8)).take 16) (List.range (n - m))
      (fun k _ => by
        intro hcontra
        have := (hcond (m + k)).mp hcontra
        omega)
    simp only [Function.comp_def] at this ⊢
    exact this
  rw [hfirst, hsecond, List.append_nil]

lemma window_start_le {L k : ℕ} (hL : 16 ≤ L) (hk : k < (L - 16) / 8 + 1) :
    8 * k + 16 ≤ L := by
  have hk' : k ≤ (L - 16) / 8 := by omega
  have h1 : k * 8 ≤ (L - 16) / 8 * 8 := Nat.mul_le_mul_right 8 hk'
  have h2 : k * 8 ≤ L - 16 := le_trans h1 (Nat.div_mul_le_self _ _)
  omega

lemma mae_chunks_short (frames : List α) (h1 : frames ≠ [])
    (h2 : frames.length < 16) :
    mae_chunks frames =
      [frames ++ List.replicate (16 - frames.length) (frames.getLast h1)] := by
  have hpadlen :
      (frames ++ List.replicate (16 - frames.length) (frames.getLast h1)).length
        = 16 := by
    simp [List.length_append, List.length_replicate]
    omega
  rw [mae_chunks, List.getLast?_eq_getLast frames h1]
  simp only [if_pos h2]
  rw [sliding_window_eq_map _ (le_of_eq hpadlen.symm), hpadlen]
  norm_num
  rw [show List.range 1 = [0] from rfl, List.map_cons, List.map_nil,
    Nat.mul_zero, List.drop_zero, List.take_of_length_le (le_of_eq hpadlen)]

lemma mae_chunks_long (frames : List α) (h : 16 ≤ frames.length) :
    mae_chunks frames =
      (List.range ((frames.length - 16) / 8 + 1)).map
        (fun k => (frames.drop (8 * k)).take 16) := by
  have hne : frames ≠ [] := by
    intro hcontra
    rw [hcontra] at h
    simp at h
  rw [mae_chunks, List.getLast?_eq_getLast frames hne]
  simp only [if_neg (not_lt.mpr h)]
  rw [sliding_window_eq_map frames h]
  have hfalse : ((List.range ((frames.length - 16) / 8 + 1)).map
      (fun k => (frames.drop (8 * k)).take 16)).isEmpty = false := by
    simp [List.isEmpty_iff, List.range_succ]
  rw [hfalse]
  simp

/-- C2: for a non-empty frame sequence, when the frame count `F` is below
16 the motion extractor pads with the last frame and produces exactly one
window whose final `16-F` entries are that last frame; when `F ≥ 16` it
produces `(F-16)/8 + 1` windows, window `k` starting at frame `8*k`, with
consecutive windows overlapping in exactly 8 frames. -/
theorem mae_window_policy (frames : List α) (hne : frames ≠ []) :
    (frames.length < 16 →
      (mae_chunks frames).length = 1 ∧
      mae_chunks frames =
        [frames ++ List.replicate (16 - frames.length) (frames.getLast hne)] ∧
      ((mae_chunks frames).headI).drop frames.length =
        List.replicate (16 - frames.length) (frames.getLast hne)) ∧
    (16 ≤ frames.length →
      (mae_chunks frames).length = (frames.length - 16) / 8 + 1 ∧
      (∀ k, k < (frames.length - 16) / 8 + 1 →
        (mae_chunks frames).get? k = some ((frames.drop (8 * k)).take 16)) ∧
      (∀ k w w', (mae_chunks frames).get? k = some w →
        (mae_chunks frames).get? (k + 1) = some w' →
        w.length = 16 ∧ w.drop 8 = w'.take 8)) := by
  constructor
  · intro hshort
    have heq := mae_chunks_short frames hne hshort
    refine ⟨by rw [heq]; rfl, heq, ?_⟩
    rw [heq]
    simp only [List.headI]
    exact List.drop_left frames _
  · intro hlong
    have heq := mae_chunks_long frames hlong
    have hget : ∀ k, k < (frames.length - 16) / 8 + 1 →
        (mae_chunks frames).get? k = some ((frames.drop (8 * k)).take 16) := by
      intro k hk
      rw [heq, List.get?_map, List.get?_range hk]
      rfl
    have hlen : (mae_chunks frames).length = (frames.length - 16) / 8 + 1 := by
      rw [heq, List.length_map, List.length_range]
    refine ⟨hlen, hget, ?_⟩
    intro k w w' hw hw'
    have hk1 : k + 1 < (frames.length - 16) / 8 + 1 := by
      by_contra hc
      rw [List.get?_eq_none.mpr (by rw [hlen]; omega)] at hw'
      exact Option.noConfusion hw'
    have hk : k < (frames.length - 16) / 8 + 1 := by omega
    have hwval : w = (frames.drop (8 * k)).take 16 := by
      have := hget k hk
      rw [hw] at this
      exact (Option.some.injEq _ _).mp this.symm |>.symm
    have hwval' : w' = (frames.drop (8 * (k + 1))).take 16 := by
      have := hget (k + 1) hk1
      rw [hw'] at this
      exact (Option.some.injEq _ _).mp this.symm |>.symm
    have hfit : 8 * k + 16 ≤ frames.length := window_start_le hlong hk
    constructor
    · rw [hwval, List.length_take, List.length_drop]
      omega
    · have e : 8 * k + 8 = 8 * (k + 1) := by ring
      rw [hwval, hwval', List.drop_take, List.take_take, List.drop_drop, e]
      norm_num

/-- C2 witness: a 3-frame input yields one window; a 24-frame input yields
`(24-16)/8 + 1 = 2` windows. -/
theorem mae_window_policy_witness :
    (mae_chunks [0, 1, 2]).length = 1 ∧
    (mae_chunks (List.range 24)).length = (24 - 16) / 8 + 1 := by
  have hne : (List.range 24) ≠ [] := by
    rw [← List.length_pos_iff_ne_nil, List.length_range]
    norm_num
  have hlong : 16 ≤ (List.range 24).length := by
    rw [List.length_range]
    norm_num
  have h := ((mae_window_policy (List.range 24) hne).2 hlong).1
  rw [List.length_range] at h
  exact ⟨((mae_window_policy [0, 1, 2] (by decide)).1 (by decide)).1, h⟩

/-! ## C3: the frame → ms → frame round trip -/

/-- C3 counterexample: frame 1 at 30 fps converts to 33 ms, which converts
back to frame 0, not frame 1 — the truncating round trip does not recover
the original frame index. -/
theorem frame_ms_roundtrip_counterexample :
    frame_to_ms 1 30 = 33 ∧ ms_to_frame (frame_to_ms 1 30) 30 = 0 ∧
      ms_to_frame (frame_to_ms 1 30) 30 ≠ 1 := by
  have h1 : frame_to_ms 1 30 = 33 := by
    rw [frame_to_ms, pyInt]
    norm_num
  have h2 : ms_to_frame 33 30 = 0 := by
    rw [ms_to_frame, pyInt]
    norm_num
  refine ⟨h1, by rw [h1]; exact h2, by rw [h1, h2]; norm_num⟩

/-- C3 (amended): for any fps with `0 < fps ≤ 1000`, the truncating
round trip frame → ms → frame loses at most one frame, downward:
`frame - 1 ≤ int(int(frame/fps*1000)/1000*fps) ≤ frame`. -/
theorem frame_ms_roundtrip_amended (f : ℕ) (fps : ℚ)
    (hpos : 0 < fps) (hle : fps ≤ 1000) :
    (f : ℤ) - 1 ≤ ms_to_frame (frame_to_ms f fps) fps ∧
      ms_to_frame (frame_to_ms f fps) fps ≤ (f : ℤ) := by
  have hfps : fps ≠ 0 := ne_of_gt hpos
  set x : ℚ := (f : ℚ) / fps * 1000 with hxdef
  have hx0 : (0 : ℚ) ≤ x := by positivity
  have hms : frame_to_ms f fps = ⌊x⌋ := by
    rw [frame_to_ms, pyInt, if_neg (not_lt.mpr hx0)]
  have hms0 : (0 : ℤ) ≤ ⌊x⌋ := Int.floor_nonneg.mpr hx0
  have hms0' : (0 : ℚ) ≤ ((⌊x⌋ : ℤ) : ℚ) := by exact_mod_cast hms0
  set y : ℚ := ((⌊x⌋ : ℤ) : ℚ) / 1000 * fps with hydef
  have hy0 : (0 : ℚ) ≤ y := by
    apply mul_nonneg (div_nonneg hms0' (by norm_num)) (le_of_lt hpos)
  have hmtf : ms_to_frame ⌊x⌋ fps = ⌊y⌋ := by
    rw [ms_to_frame, pyInt, if_neg (not_lt.mpr hy0)]
  have hupper : y ≤ (f : ℚ) := by
    have h1 : ((⌊x⌋ : ℤ) : ℚ) ≤ x := Int.floor_le x
    have h2 : ((⌊x⌋ : ℤ) : ℚ) * (fps / 1000) ≤ x * (fps / 1000) := by
      apply mul_le_mul_of_nonneg_right h1
      positivity
    have h3 : x * (fps / 1000) = (f : ℚ) := by
      rw [hxdef]
      field_simp
    have h4 : y = ((⌊x⌋ : ℤ) : ℚ) * (fps / 1000) := by rw [hydef]; ring
    linarith
  have hlower : (f : ℚ) - 1 < y := by
    have h2 : x < ⌊x⌋ + 1 := Int.lt_floor_add_one x
    have h3 : x - 1 < ((⌊x⌋ : ℤ) : ℚ) := by linarith
    have h4 : (x - 1) * (fps / 1000) < ((⌊x⌋ : ℤ) : ℚ) * (fps / 1000) := by
      apply mul_lt_mul_of_pos_right h3
      positivity
    have h5 : (x - 1) * (fps / 1000) = (f : ℚ) - fps / 1000 := by
      rw [hxdef]
      field_simp
    have h6 : fps / 1000 ≤ 1 := by
      rw [div_le_one (by norm_num : (0:ℚ) < 1000)]
      exact hle
    have h7 : y = ((⌊x⌋ : ℤ) : ℚ) * (fps / 1000) := by rw [hydef]; ring
    linarith
  rw [hms, hmtf]
  constructor
  · apply Int.le_floor.mpr
    push_cast
    linarith
  · have : ⌊y⌋ ≤ ⌊(f : ℚ)⌋ := Int.floor_le_floor hupper
    simpa using this

/-- C3 witness: the amended bound instantiated at frame 100, fps 25
(where the round trip happens to be exact) and checked concretely. -/
theorem frame_ms_roundtrip_amended_witness :
    (100 : ℤ) - 1 ≤ ms_to_frame (frame_to_ms 100 25) 25 ∧
      ms_to_frame (frame_to_ms 100 25) 25 ≤ (100 : ℤ) :=
  frame_ms_roundtrip_amended 100 25 (by norm_num) (by norm_num)

/-! ## C8: resolution order of heterogeneous segment records -/

/-- C8: a record is resolved by trying the mapping keys `start`/`end`
first, else a positional pair of length at least 2, else the attributes
`start`/`end`, else it is skipped (`none`); the output of
`_extract_segments` has exactly one boundary per successfully resolved
record, in input order. -/
theorem segment_resolution_order (r : SegRecord)
    (segments : List SegRecord) (fps : ℚ) :
    (∀ s e, r.isDict = true → r.mapStart = some s → r.mapEnd = some e →
      resolveRecord r = some (s, e)) ∧
    (∀ s e rest,
      ¬ (r.isDict = true ∧ r.mapStart.isSome = true ∧ r.mapEnd.isSome = true) →
      r.isSeq = true → r.items = s :: e :: rest →
      resolveRecord r = some (s, e)) ∧
    (∀ s e,
      ¬ (r.isDict = true ∧ r.mapStart.isSome = true ∧ r.mapEnd.isSome = true) →
      ¬ (r.isSeq = true ∧ 2 ≤ r.items.length) →
      r.attrStart = some s → r.attrEnd = some e →
      resolveRecord r = some (s, e)) ∧
    (¬ (r.isDict = true ∧ r.mapStart.isSome = true ∧ r.mapEnd.isSome = true) →
      ¬ (r.isSeq = true ∧ 2 ≤ r.items.length) →
      (r.attrStart = none ∨ r.attrEnd = none) →
      resolveRecord r = none) ∧
    extract_segments segments fps =
      (segments.filterMap resolveRecord).map fun p => mkBoundary p.1 p.2 fps := by
  refine ⟨?_, ?_, ?_, ?_, ?_⟩
  · intro s e hd hs he
    simp [resolveRecord, hd, hs, he]
  · intro s e rest hnd hseq hitems
    rw [resolveRecord, if_neg hnd, if_pos (by simp [hseq, hitems]), hitems]
    rfl
  · intro s e hnd hns has hae
    rw [resolveRecord, if_neg hnd, if_neg hns, has, hae]
  · intro hnd hns hattr
    rw [resolveRecord, if_neg hnd, if_neg hns]
    rcases hattr with h | h <;> rw [h] <;> cases hs : r.attrStart <;>
      cases he : r.attrEnd <;> simp_all
  · rw [extract_segments, List.map_filterMap]

/-- C8 witness: a record that is both a positional pair and
attribute-bearing resolves positionally (`(3, 7)`), not via its
attributes. -/
theorem segment_resolution_order_witness :
    resolveRecord ⟨false, none, none, true, [3, 7, 9], some 100, some 200⟩ =
      some (3, 7) :=
  (segment_resolution_order
      ⟨false, none, none, true, [3, 7, 9], some 100, some 200⟩ [] 30).2.1
    3 7 [9] (by simp) rfl rfl

/-! ## C5: boundary times are `round(frame / fps, 3)` -/

/-- C5: every boundary produced by `_extract_segments` carries times
`round(start_frame / fps, 3)` and `round(end_frame / fps, 3)`; in
particular SIGN segments `[(0,15),(20,40)]` at fps 30 yield the boundary
times `[(0.0, 0.5), (0.667, 1.333)]`. -/
theorem boundary_round3_times (segments : List SegRecord) (fps : ℚ) :
    (∀ b ∈ extract_segments segments fps,
      b.start_time = round3 ((b.start_frame : ℚ) / fps) ∧
      b.end_time = round3 ((b.end_frame : ℚ) / fps)) ∧
    extract_segments [posRecord [0, 15], posRecord [20, 40]] 30 =
      [⟨0, 15, 0, 1/2⟩, ⟨20, 40, 667/1000, 1333/1000⟩] := by
  constructor
  · intro b hb
    rw [extract_segments] at hb
    rcases List.mem_filterMap.mp hb with ⟨seg, _, hseg⟩
    rcases hres : resolveRecord seg with _ | p
    · rw [hres] at hseg
      exact Option.noConfusion hseg
    · rw [hres] at hseg
      have hb' : b = mkBoundary p.1 p.2 fps := by
        simpa using hseg.symm
      rw [hb']
      simp [mkBoundary]
  · have h1 : resolveRecord (posRecord [0, 15]) = some (0, 15) := by
      rw [posRecord, resolveRecord]
      norm_num
    have h2 : resolveRecord (posRecord [20, 40]) = some (20, 40) := by
      rw [posRecord, resolveRecord]
      norm_num
    rw [extract_segments, List.filterMap_cons, h1, List.filterMap_cons, h2,
      List.filterMap_nil]
    simp [mkBoundary]
    refine ⟨⟨?_, ?_⟩, ?_, ?_⟩ <;> (rw [round3, roundHalfEven]; norm_num)

/-! ## C6: short input is rejected before any pipeline work -/

/-- C6: an input with fewer than 10 frames (the empty input included) is
rejected with a 400 error by the validation prologue, and the outcome
does not depend on the downstream pipeline — no model is constructed or
called. -/
theorem short_input_rejected (frames : List α)
    (run₁ run₂ : List α → TranslateResponse) (h : frames.length < 10) :
    translate_endpoint frames run₁ =
      (if frames.isEmpty then .httpError 400 "No frames provided"
       else .httpError 400 ("Too few frames (" ++ toString frames.length ++
         "). Need at least 10 frames for translation.")) ∧
    translate_endpoint frames run₁ = translate_endpoint frames run₂ := by
  rw [translate_endpoint, translate_endpoint]
  by_cases he : frames.isEmpty
  · rw [if_pos he, if_pos he, if_pos he]
    exact ⟨rfl, rfl⟩
  · rw [if_neg he, if_neg he, if_neg he, if_pos h, if_pos h]
    exact ⟨rfl, rfl⟩

/-- C6 witness: a 9-frame input and the empty input are both rejected
with a 400 error, whatever the downstream pipeline would do. -/
theorem short_input_rejected_witness :
    translate_endpoint (List.replicate 9 (0 : ℕ))
        (fun _ => ⟨[], [], "", 0, 0⟩) =
      EndpointResult.httpError 400
        "Too few frames (9). Need at least 10 frames for translation." ∧
    translate_endpoint ([] : List ℕ) (fun _ => ⟨[], [], "", 0, 0⟩) =
      EndpointResult.httpError 400 "No frames provided" := by
  constructor
  · have h := (short_input_rejected (List.replicate 9 (0 : ℕ))
      (fun _ => ⟨[], [], "", 0, 0⟩) (fun _ => ⟨[], [], "", 0, 0⟩)
      (by norm_num)).1
    simpa using h
  · have h := (short_input_rejected ([] : List ℕ)
      (fun _ => ⟨[], [], "", 0, 0⟩) (fun _ => ⟨[], [], "", 0, 0⟩)
      (by norm_num)).1
    simpa using h

/-! ## C7: zero SIGN segments short-circuits to an empty valid result -/

/-- C7: with zero SIGN segments the pipeline returns
`signs = [], sentences = [], full_text = ""` with `frame_count` and
`duration = frame_count / fps` populated, independently of the
transcription and translation collaborators (they are never invoked). -/
theorem empty_segmentation_short_circuit (frame_count : ℕ) (fps : ℚ)
    (sentence_segments : List (ℤ × ℤ))
    (t₁ t₂ : List (ℤ × ℤ × String) → List String)
    (b₁ b₂ : List String → List String) :
    translate_assemble frame_count fps [] sentence_segments t₁ b₁ =
      ⟨[], [], "", frame_count, (frame_count : ℚ) / fps⟩ ∧
    translate_assemble frame_count fps [] sentence_segments t₁ b₁ =
      translate_assemble frame_count fps [] sentence_segments t₂ b₂ := by
  rw [translate_assemble, translate_assemble]
  exact ⟨rfl, rfl⟩

/-! ## C4: length mismatches are padded, not surfaced as errors -/

/-- C4 counterexample: two SIGN segments but a single notation and a
single translation result — no alignment error is raised; the endpoint
still returns two signs and silently pads the second one's notation and
text with the empty string. -/
theorem alignment_mismatch_counterexample :
    (translate_assemble 60 30 [(0, 15), (20, 40)] []
        (fun _ => ["M500x500S2e748"]) (fun _ => ["hello"])).signs.length = 2 ∧
    ((translate_assemble 60 30 [(0, 15), (20, 40)] []
        (fun _ => ["M500x500S2e748"]) (fun _ => ["hello"])).signs.getD 1
          ⟨0, 0, 0, 0, "x", "x"⟩).signwriting = "" ∧
    ((translate_assemble 60 30 [(0, 15), (20, 40)] []
        (fun _ => ["M500x500S2e748"]) (fun _ => ["hello"])).signs.getD 1
          ⟨0, 0, 0, 0, "x", "x"⟩).text = "" := by
  rw [translate_assemble]
  norm_num [List.enum]

/-- C4 (amended): a mismatch between the number of notation/translation
results and the number of SIGN segments is not detected: the endpoint
always assembles exactly one `TranslatedSign` per SIGN segment, in order,
padding a missing notation or translation with `""` and ignoring
extras. -/
theorem alignment_mismatch_amended (frame_count : ℕ) (fps : ℚ)
    (sign_segments sentence_segments : List (ℤ × ℤ))
    (transcribe : List (ℤ × ℤ × String) → List String)
    (translateBatch : List String → List String)
    (hne : sign_segments ≠ []) :
    ((translate_assemble frame_count fps sign_segments sentence_segments
        transcribe translateBatch).signs.length = sign_segments.length) ∧
    (∀ i seg, sign_segments.get? i = some seg →
      (translate_assemble frame_count fps sign_segments sentence_segments
          transcribe translateBatch).signs.get? i =
        some ⟨seg.1, seg.2, round3 ((seg.1 : ℚ) / fps),
          round3 ((seg.2 : ℚ) / fps),
          (transcribe (sign_annotations sign_segments fps)).getD i "",
          (if (transcribe (sign_annotations sign_segments fps)).isEmpty
           then []
           else translateBatch
             (transcribe (sign_annotations sign_segments fps))).getD i ""⟩) := by
  have hne' : ¬ sign_segments.isEmpty := by
    rw [List.isEmpty_iff]
    exact hne
  rw [translate_assemble, if_neg hne']
  constructor
  · simp [List.enum_length]
  · intro i seg hseg
    simp only [List.get?_map, List.enum_get?, hseg, Option.map_some']

/-- C4 witness for the amended statement: with three segments and two
notation results, the third sign exists and is padded. -/
theorem alignment_mismatch_amended_witness :
    (translate_assemble 90 30 [(0, 10), (12, 20), (25, 40)] []
        (fun _ => ["A", "B"]) (fun l => l)).signs.length = 3 := by
  have h := (alignment_mismatch_amended 90 30 [(0, 10), (12, 20), (25, 40)] []
    (fun _ => ["A", "B"]) (fun l => l) (by simp)).1
  simpa using h

/-- C5 witness: the boundary `(20, 40)` at fps 30 carries exactly the
`round(frame/30, 3)` times. -/
theorem boundary_round3_times_witness :
    (⟨20, 40, 667/1000, 1333/1000⟩ : Boundary).start_time =
      round3 ((((⟨20, 40, 667/1000, 1333/1000⟩ : Boundary).start_frame : ℤ) : ℚ) / 30) ∧
    (⟨20, 40, 667/1000, 1333/1000⟩ : Boundary).end_time =
      round3 ((((⟨20, 40, 667/1000, 1333/1000⟩ : Boundary).end_frame : ℤ) : ℚ) / 30) := by
  have h := boundary_round3_times [posRecord [0, 15], posRecord [20, 40]] 30
  apply h.1
  rw [h.2]
  simp

/-! ## C1: the landmark encoder -/

lemma encGroup_length (g : List (Option Landmark)) (cap : ℕ) (w h : ℚ) :
    (encGroup g cap w h).length = cap := by
  rw [encGroup, List.length_map, List.length_range]

lemma encGroupConf_length (g : List (Option Landmark)) (cap : ℕ) :
    (encGroupConf g cap).length = cap := by
  rw [encGroupConf, List.length_map, List.length_range]

lemma encGroup_getD (g : List (Option Landmark)) (cap : ℕ) (w h : ℚ)
    (i : ℕ) (hi : i < cap) :
    (encGroup g cap w h).getD i [] =
      (match (g.take cap).get? i with
       | some (some lm) => [lm.x.getD 0 * w, lm.y.getD 0 * h, lm.z.getD 0 * w]
       | _ => [0, 0, 0]) := by
  show ((encGroup g cap w h).get? i).getD [] = _
  rw [encGroup, List.get?_map, List.get?_range hi]
  rfl

lemma encGroupConf_getD (g : List (Option Landmark)) (cap : ℕ)
    (i : ℕ) (hi : i < cap) :
    (encGroupConf g cap).getD i 0 =
      (match (g.take cap).get? i with
       | some (some lm) => lm.visibility.getD 1
       | _ => 0) := by
  show ((encGroupConf g cap).get? i).getD 0 = _
  rw [encGroupConf, List.get?_map, List.get?_range hi]
  rfl

lemma frameData_getD (f : Frame) (w h : ℚ) (g : LmGroup) (i : ℕ)
    (hi : i < g.capacity) :
    (frameData f w h).getD (g.offset + i) [] =
      (encGroup ((g.select f).getD []) g.capacity w h).getD i [] := by
  cases g <;>
    simp only [LmGroup.offset, LmGroup.capacity, LmGroup.select,
      POSE_POINTS, FACE_POINTS, HAND_POINTS] at hi ⊢ <;>
    rw [frameData] <;>
    simp only [POSE_POINTS, FACE_POINTS, HAND_POINTS]
  case body =>
    rw [Nat.zero_add]
    rw [List.getD_append _ _ _ _ (by rw [encGroup_length]; omega)]
  case face =>
    rw [List.getD_append_right _ _ _ _ (by rw [encGroup_length]; omega),
      encGroup_length]
    have e : 33 + i - 33 = i := by omega
    rw [e, List.getD_append _ _ _ _ (by rw [encGroup_length]; omega)]
  case leftHand =>
    rw [List.getD_append_right _ _ _ _ (by rw [encGroup_length]; omega),
      encGroup_length]
    have e : 33 + 468 + i - 33 = 468 + i := by omega
    rw [e, List.getD_append_right _ _ _ _ (by rw [encGroup_length]; omega),
      encGroup_length]
    have e2 : 468 + i - 468 = i := by omega
    rw [e2, List.getD_append _ _ _ _ (by rw [encGroup_length]; omega)]
  case rightHand =>
    rw [List.getD_append_right _ _ _ _ (by rw [encGroup_length]; omega),
      encGroup_length]
    have e : 33 + 468 + 21 + i - 33 = 468 + (21 + i) := by omega
    rw [e, List.getD_append_right _ _ _ _ (by rw [encGroup_length]; omega),
      encGroup_length]
    have e2 : 468 + (21 + i) - 468 = 21 + i := by omega
    rw [e2, List.getD_append_right _ _ _ _ (by rw [encGroup_length]; omega),
      encGroup_length]
    have e3 : 21 + i - 21 = i := by omega
    rw [e3]

lemma frameConf_getD (f : Frame) (g : LmGroup) (i : ℕ)
    (hi : i < g.capacity) :
    (frameConf f).getD (g.offset + i) 0 =
      (encGroupConf ((g.select f).getD []) g.capacity).getD i 0 := by
  cases g <;>
    simp only [LmGroup.offset, LmGroup.capacity, LmGroup.select,
      POSE_POINTS, FACE_POINTS, HAND_POINTS] at hi ⊢ <;>
    rw [frameConf] <;>
    simp only [POSE_POINTS, FACE_POINTS, HAND_POINTS]
  case body =>
    rw [Nat.zero_add]
    rw [List.getD_append _ _ _ _ (by rw [encGroupConf_length]; omega)]
  case face =>
    rw [List.getD_append_right _ _ _ _ (by rw [encGroupConf_length]; omega),
      encGroupConf_length]
    have e : 33 + i - 33 = i := by omega
    rw [e, List.getD_append _ _ _ _ (by rw [encGroupConf_length]; omega)]
  case leftHand =>
    rw [List.getD_append_right _ _ _ _ (by rw [encGroupConf_length]; omega),
      encGroupConf_length]
    have e : 33 + 468 + i - 33 = 468 + i := by omega
    rw [e, List.getD_append_right _ _ _ _ (by rw [encGroupConf_length]; omega),
      encGroupConf_length]
    have e2 : 468 + i - 468 = i := by omega
    rw [e2, List.getD_append _ _ _ _ (by rw [encGroupConf_length]; omega)]
  case rightHand =>
    rw [List.getD_append_right _ _ _ _ (by rw [encGroupConf_length]; omega),
      encGroupConf_length]
    have e : 33 + 468 + 21 + i - 33 = 468 + (21 + i) := by omega
    rw [e, List.getD_append_right _ _ _ _ (by rw [encGroupConf_length]; omega),
      encGroupConf_length]
    have e2 : 468 + (21 + i) - 468 = 21 + i := by omega
    rw [e2, List.getD_append_right _ _ _ _ (by rw [encGroupConf_length]; omega),
      encGroupConf_length]
    have e3 : 21 + i - 21 = i := by omega
    rw [e3]

lemma dataAt_eq (frames : List Frame) (w h : ℚ) (j : ℕ) (f : Frame)
    (hj : frames.get? j = some f) (p : ℕ) :
    dataAt (landmarks_to_numpy frames w h).1 j p =
      (frameData f w h).getD p [] := by
  have hd : (frames.map fun f => [frameData f w h]).getD j [] =
      [frameData f w h] := by
    show ((frames.map fun f => [frameData f w h]).get? j).getD [] = _
    rw [List.get?_map, hj]
    rfl
  rw [dataAt, landmarks_to_numpy]
  rw [hd]
  rfl

lemma confAt_eq (frames : List Frame) (w h : ℚ) (j : ℕ) (f : Frame)
    (hj : frames.get? j = some f) (p : ℕ) :
    confAt (landmarks_to_numpy frames w h).2 j p =
      (frameConf f).getD p 0 := by
  have hd : (frames.map fun f => [frameConf f]).getD j [] =
      [frameConf f] := by
    show ((frames.map fun f => [frameConf f]).get? j).getD [] = _
    rw [List.get?_map, hj]
    rfl
  rw [confAt, landmarks_to_numpy]
  rw [hd]
  rfl

lemma encGroup_mem_length (g : List (Option Landmark)) (cap : ℕ) (w h : ℚ) :
    ∀ pt ∈ encGroup g cap w h, pt.length = 3 := by
  intro pt hpt
  rw [encGroup] at hpt
  rcases List.mem_map.mp hpt with ⟨i, _, hval⟩
  rw [← hval]
  rcases (g.take cap).get? i with _ | (_ | lm) <;> rfl

lemma frameData_length (f : Frame) (w h : ℚ) :
    (frameData f w h).length = TOTAL_POINTS := by
  rw [frameData, TOTAL_POINTS]
  simp [encGroup_length, POSE_POINTS, FACE_POINTS, HAND_POINTS]

lemma frameConf_length (f : Frame) :
    (frameConf f).length = TOTAL_POINTS := by
  rw [frameConf, TOTAL_POINTS]
  simp [encGroupConf_length, POSE_POINTS, FACE_POINTS, HAND_POINTS]

/-- C1: for a non-empty frame list the encoder output has shape
`[frame_count, 1, 543, 3]` with confidences `[frame_count, 1, 543]`, in
the fixed block order body-pose/face/left-hand/right-hand; a populated
landmark of a present group is read back at its slot as exactly
`(x*width, y*height, z*width)` with its visibility (1.0 when absent),
while a slot whose group entry is missing or falsy holds zero coordinates
and zero confidence (landmarks beyond a group's capacity have no slot at
all). -/
theorem landmark_encoder_spec (frames : List Frame) (w h : ℚ)
    (hne : frames ≠ []) :
    ((landmarks_to_numpy frames w h).1.length = frames.length ∧
     (landmarks_to_numpy frames w h).2.length = frames.length ∧
     (∀ fr ∈ (landmarks_to_numpy frames w h).1, fr.length = 1 ∧
       ∀ row ∈ fr, row.length = TOTAL_POINTS ∧ ∀ pt ∈ row, pt.length = 3) ∧
     (∀ fr ∈ (landmarks_to_numpy frames w h).2, fr.length = 1 ∧
       ∀ row ∈ fr, row.length = TOTAL_POINTS)) ∧
    (∀ j f, frames.get? j = some f → ∀ (g : LmGroup) (i : ℕ),
      i < g.capacity → ∀ gl lm, g.select f = some gl →
      gl.get? i = some (some lm) →
      dataAt (landmarks_to_numpy frames w h).1 j (g.offset + i) =
        [lm.x.getD 0 * w, lm.y.getD 0 * h, lm.z.getD 0 * w] ∧
      confAt (landmarks_to_numpy frames w h).2 j (g.offset + i) =
        lm.visibility.getD 1) ∧
    (∀ j f, frames.get? j = some f → ∀ (g : LmGroup) (i : ℕ),
      i < g.capacity →
      (((g.select f).getD []).get? i = none ∨
        ((g.select f).getD []).get? i = some none) →
      dataAt (landmarks_to_numpy frames w h).1 j (g.offset + i) = [0, 0, 0] ∧
      confAt (landmarks_to_numpy frames w h).2 j (g.offset + i) = 0) := by
  refine ⟨⟨?_, ?_, ?_, ?_⟩, ?_, ?_⟩
  · rw [landmarks_to_numpy]
    exact List.length_map _ _
  · rw [landmarks_to_numpy]
    exact List.length_map _ _
  · intro fr hfr
    rw [landmarks_to_numpy] at hfr
    rcases List.mem_map.mp hfr with ⟨f, _, hval⟩
    rw [← hval]
    refine ⟨rfl, ?_⟩
    intro row hrow
    rcases List.mem_singleton.mp hrow with rfl
    refine ⟨frameData_length f w h, ?_⟩
    intro pt hpt
    rw [frameData] at hpt
    rcases List.mem_append.mp hpt with h1 | h1
    · exact encGroup_mem_length _ _ _ _ pt h1
    rcases List.mem_append.mp h1 with h2 | h2
    · exact encGroup_mem_length _ _ _ _ pt h2
    rcases List.mem_append.mp h2 with h3 | h3
    · exact encGroup_mem_length _ _ _ _ pt h3
    · exact encGroup_mem_length _ _ _ _ pt h3
  · intro fr hfr
    rw [landmarks_to_numpy] at hfr
    rcases List.mem_map.mp hfr with ⟨f, _, hval⟩
    rw [← hval]
    refine ⟨rfl, ?_⟩
    intro row hrow
    rcases List.mem_singleton.mp hrow with rfl
    exact frameConf_length f
  · intro j f hj g i hi gl lm hsel hlm
    have htake : (((g.select f).getD []).take g.capacity).get? i =
        some (some lm) := by
      rw [List.get?_take hi, hsel]
      exact hlm
    constructor
    · rw [dataAt_eq frames w h j f hj, frameData_getD f w h g i hi,
        encGroup_getD _ _ _ _ _ hi, htake]
    · rw [confAt_eq frames w h j f hj, frameConf_getD f g i hi,
        encGroupConf_getD _ _ _ hi, htake]
  · intro j f hj g i hi hzero
    have htake : (((g.select f).getD []).take g.capacity).get? i =
        ((g.select f).getD []).get? i := List.get?_take hi
    constructor
    · rw [dataAt_eq frames w h j f hj, frameData_getD f w h g i hi,
        encGroup_getD _ _ _ _ _ hi, htake]
      rcases hzero with hz | hz <;> rw [hz]
    · rw [confAt_eq frames w h j f hj, frameConf_getD f g i hi,
        encGroupConf_getD _ _ _ hi, htake]
      rcases hzero with hz | hz <;> rw [hz]

/-- C1 witness: one frame whose body-pose group holds a single populated
landmark `(x=1/2, y=1/4, z=-1/10, visibility absent)` encodes at slot 0
to `(50, 50, -10)` with confidence 1 for width 100, height 200. -/
theorem landmark_encoder_spec_witness :
    dataAt (landmarks_to_numpy
        [⟨some [some ⟨some (1/2), some (1/4), some (-1/10), none⟩],
          none, none, none⟩] 100 200).1 0 (LmGroup.body.offset + 0) =
      [50, 50, -10] ∧
    confAt (landmarks_to_numpy
        [⟨some [some ⟨some (1/2), some (1/4), some (-1/10), none⟩],
          none, none, none⟩] 100 200).2 0 (LmGroup.body.offset + 0) = 1 := by
  have h := (landmark_encoder_spec
      [⟨some [some ⟨some (1/2), some (1/4), some (-1/10), none⟩],
        none, none, none⟩] 100 200 (by simp)).2.1 0
      ⟨some [some ⟨some (1/2), some (1/4), some (-1/10), none⟩],
        none, none, none⟩ rfl LmGroup.body 0
      (by norm_num [LmGroup.capacity, POSE_POINTS])
      [some ⟨some (1/2), some (1/4), some (-1/10), none⟩]
      ⟨some (1/2), some (1/4), some (-1/10), none⟩ rfl rfl
  constructor
  · rw [h.1]
    norm_num
  · rw [h.2]
    rfl

/-! ## C9: models are constructed at most once per kind -/

lemma get_model_good {H : Type} (construct : ModelKind → ℕ → H)
    (k : ModelKind) (s : CacheState H) (hs : GoodCache construct s) :
    (get_model construct k s).1 = construct k 0 ∧
      GoodCache construct (get_model construct k s).2 := by
  rcases hs k with ⟨hc, hn⟩ | ⟨hc, hn⟩
  · constructor
    · simp [get_model, hc, hn]
    · intro k2
      by_cases hk : k2 = k
      · subst hk
        right
        simp [get_model, hc, hn]
      · simp only [get_model, hc]
        simpa [hk] using hs k2
  · constructor
    · simp [get_model, hc]
    · simpa [get_model, hc] using hs

lemma run_calls_good {H : Type} (construct : ModelKind → ℕ → H)
    (trace : List ModelKind) (s : CacheState H)
    (hs : GoodCache construct s) :
    (run_calls construct trace s).1 = trace.map (fun k => construct k 0) ∧
      GoodCache construct (run_calls construct trace s).2 := by
  induction trace generalizing s with
  | nil => exact ⟨rfl, hs⟩
  | cons k ks ih =>
    have h1 := get_model_good construct k s hs
    have h2 := ih (get_model construct k s).2 h1.2
    simp only [run_calls, List.map_cons]
    exact ⟨by rw [h1.1, h2.1], h2.2⟩

/-- C9: over any sequence of accessor calls starting at process start,
each model kind is constructed at most once, and every call returns the
handle produced by the first construction of its kind. -/
theorem lazy_singleton_spec {H : Type} (construct : ModelKind → ℕ → H)
    (trace : List ModelKind) :
    (∀ k, ((run_calls construct trace (initCache H)).2).constructions k ≤ 1) ∧
    (run_calls construct trace (initCache H)).1 =
      trace.map fun k => construct k 0 := by
  have hinit : GoodCache construct (initCache H) := fun _ => Or.inl ⟨rfl, rfl⟩
  have h := run_calls_good construct trace (initCache H) hinit
  refine ⟨?_, h.1⟩
  intro k
  rcases h.2 k with ⟨_, hn⟩ | ⟨_, hn⟩ <;> omega

/-! ## C10: batch notation translation -/

lemma stripBPE_cons_ne (c : Char) (t : List Char) (hc : ¬ c = '@') :
    stripBPE (c :: t) = c :: stripBPE t := by
  cases t with
  | nil => rfl
  | cons c2 r =>
    rw [stripBPE, if_neg fun h => hc h.1]

lemma hasMarker_stripBPE : ∀ l : List Char, hasMarker (stripBPE l) = false
  | [] => by simp [stripBPE, hasMarker]
  | [c] => by simp [stripBPE, hasMarker]
  | c1 :: c2 :: rest => by
    by_cases h12 : c1 = '@' ∧ c2 = '@'
    · rw [stripBPE, if_pos h12]
      exact hasMarker_stripBPE rest
    · rw [stripBPE, if_neg h12]
      have htail := hasMarker_stripBPE (c2 :: rest)
      by_cases hc1 : c1 = '@'
      · have hc2 : ¬ c2 = '@' := fun hc2 => h12 ⟨hc1, hc2⟩
        rw [stripBPE_cons_ne c2 rest hc2] at htail ⊢
        simp only [hasMarker] at htail ⊢
        simp [hc2, htail]
      · cases hsrc : stripBPE (c2 :: rest) with
        | nil => simp [hasMarker]
        | cons d t' =>
          rw [hsrc] at htail
          simp only [hasMarker] at htail ⊢
          simp [hc1, htail]

/-- C10: `translate_signs` on the empty notation list returns `[]`
without fetching the translator or calling the batch translation; on a
non-empty list (with a batch call returning one output per input) it
returns exactly one string per input, in order, each the corresponding
batch output with every `@@` join marker stripped. -/
theorem translate_signs_spec {T : Type} (signwriting_list : List String)
    (lang : String) (tok : String → List String) (g₁ g₂ : Unit → T)
    (o₁ o₂ : T → List String → List String)
    (hlen : ∀ t ins, (o₁ t ins).length = ins.length) :
    (translate_signs ([] : List String) lang tok g₁ o₁ = [] ∧
      translate_signs ([] : List String) lang tok g₁ o₁ =
        translate_signs [] lang tok g₂ o₂) ∧
    (signwriting_list ≠ [] →
      (translate_signs signwriting_list lang tok g₁ o₁).length =
        signwriting_list.length ∧
      (∀ i, (translate_signs signwriting_list lang tok g₁ o₁).get? i =
        ((o₁ (g₁ ()) (signwriting_list.map fun sw =>
            "$" ++ lang ++ " " ++ String.intercalate " " (tok sw))).get? i).map
          fun out => (⟨stripBPE out.data⟩ : String)) ∧
      (∀ s ∈ translate_signs signwriting_list lang tok g₁ o₁,
        hasMarker s.data = false)) := by
  refine ⟨⟨rfl, rfl⟩, ?_⟩
  intro hne
  have hne' : ¬ signwriting_list.isEmpty := by
    rw [List.isEmpty_iff]
    exact hne
  rw [translate_signs, if_neg hne']
  refine ⟨?_, ?_, ?_⟩
  · rw [List.length_map, hlen, List.length_map]
  · intro i
    rw [List.get?_map]
  · intro s hs
    rcases List.mem_map.mp hs with ⟨out, _, hout⟩
    rw [← hout]
    exact hasMarker_stripBPE out.data

/-- C10 witness: one notation string through an identity batch call
yields one output (with the `@@` marker of the echoed input stripped). -/
theorem translate_signs_spec_witness :
    (translate_signs (["A@@B"] : List String) "en" (fun s => [s])
      (fun _ => ()) (fun _ ins => ins)).length = 1 := by
  have h := (translate_signs_spec (T := Unit) ["A@@B"] "en" (fun s => [s])
    (fun _ => ()) (fun _ => ()) (fun _ ins => ins) (fun _ ins => ins)
    (fun _ _ => rfl)).2 (by simp)
  simpa using h.1

end Sign2Speech
